import Mathlib

/-!
Shallow embedding of the core search/scoring/aggregation/comparison logic of
the `artigo-grover-genomico` repository (`src/blast_search.py` and
`src/grover_genomics_demo.py`).

Python strings are modelled as `List Char`, Python floats produced by the
scoring arithmetic as `ℚ`, Python ints as `ℤ`/`ℕ`, Python sets of indices as
`Finset ℕ`, raised `ValueError`/`ZeroDivisionError` as `Except Err`.
-/

namespace GroverGenomics

/-- A Python string (sequence of symbols). -/
abbrev Seq := List Char

instance {ε α : Type} [DecidableEq ε] [DecidableEq α] : DecidableEq (Except ε α) := fun a b =>
  match a, b with
  | .ok x, .ok y => decidable_of_iff (x = y) (by simp)
  | .error x, .error y => decidable_of_iff (x = y) (by simp)
  | .ok _, .error _ => isFalse (by simp)
  | .error _, .ok _ => isFalse (by simp)

/-- The error kinds the embedded operations can raise (Python exceptions). -/
inductive Err where
  | emptyInput (name : String)
  | motifTooLong
  | noOccurrence
  | divisionByZero
deriving DecidableEq, Repr

/-- Python `str.strip()`: remove leading and trailing whitespace. -/
def pyStrip (s : Seq) : Seq :=
  ((s.dropWhile Char.isWhitespace).reverse.dropWhile Char.isWhitespace).reverse

/-- Python `str.upper()` (ASCII case fold, as used on genome alphabets). -/
def pyUpper (s : Seq) : Seq := s.map Char.toUpper

/-- `blast_search.py`, `_clean_sequence`: strip, uppercase, and fail when the
result is empty. -/
def clean_sequence (seq : Seq) (name : String) : Except Err Seq :=
  let cleaned := pyUpper (pyStrip seq)
  if cleaned = [] then .error (.emptyInput name) else .ok cleaned

/-- `blast_search.py`, module constant `MATCH_REWARD = 2`. -/
def MATCH_REWARD : ℤ := 2

/-- `blast_search.py`, module constant `MISMATCH_PENALTY = -1`. -/
def MISMATCH_PENALTY : ℤ := -1

/-- `blast_search.py`, dataclass `MatchWindow` (with the `is_perfect` field of
`to_dict` kept as a derived function below). The dataclass field `matches` is
called `matched` here because `matches` is a Lean keyword. -/
structure MatchWindow where
  index : ℕ
  window : Seq
  identity : ℚ
  matched : ℕ
  score : ℤ
deriving DecidableEq, Repr

/-- The `is_perfect` entry of `MatchWindow.to_dict`:
`self.matches == len(self.window)`. -/
def is_perfect (w : MatchWindow) : Bool := w.matched = w.window.length

/-- `sum(1 for a, b in zip(window, motif) if a == b)`. -/
def matchesCount (window motif : Seq) : ℕ :=
  (window.zip motif).countP fun p => p.1 = p.2

/-- `blast_search.py`, `_score_window` (index `0` stands for the placeholder
`-1`; the caller overwrites it). -/
def score_window (window motif : Seq) : MatchWindow :=
  let m := matchesCount window motif
  let identity : ℚ := ((m : ℚ) / (motif.length : ℚ)) * 100
  let mismatches : ℤ := (motif.length : ℤ) - (m : ℤ)
  let score : ℤ := (m : ℤ) * MATCH_REWARD + mismatches * MISMATCH_PENALTY
  { index := 0, window := window, identity := identity,
    matched := m, score := score }

/-- Python slice `genome[idx : idx + L]`. -/
def pySlice (genome : Seq) (idx L : ℕ) : Seq := (genome.drop idx).take L

/-- The window loop of `blast_search`: one scored window per start index in
`range(len(genome) - len(motif) + 1)` (written `len + 1 - L` so that the
truncation of Python's empty range at negative bounds is preserved). -/
def blast_windows (genome motif : Seq) : List MatchWindow :=
  (List.range (genome.length + 1 - motif.length)).map fun idx =>
    { score_window (pySlice genome idx motif.length) motif with index := idx }

/-- The ranking relation of `hits.sort(key=lambda item: (item["identity"],
item["score"], -item["index"]), reverse=True)`: descending identity, then
descending score, then ascending index. -/
def hitOrder (a b : MatchWindow) : Prop :=
  b.identity < a.identity ∨
    (a.identity = b.identity ∧
      (b.score < a.score ∨ (a.score = b.score ∧ a.index ≤ b.index)))

instance : DecidableRel hitOrder := fun a b => by
  unfold hitOrder; infer_instance

/-- The hit list of `blast_search`: windows whose identity meets the threshold
(inclusive), ranked by `hitOrder`. Window indices are pairwise distinct, so
the Python stable sort's output is the unique `hitOrder`-sorted permutation,
which insertion sort also produces. -/
def blast_hits (genome motif : Seq) (threshold : ℚ) : List MatchWindow :=
  ((blast_windows genome motif).filter fun w => threshold ≤ w.identity
    ).insertionSort hitOrder

/-- The dictionary returned by `blast_search`. -/
structure BlastResult where
  threshold : ℚ
  genome_length : ℕ
  motif_length : ℕ
  hit_count : ℕ
  hits : List MatchWindow
  top_hit : Option MatchWindow
  all_windows : List MatchWindow
deriving DecidableEq, Repr

/-- `blast_search.py`, `blast_search` (the threshold is already numeric here,
so the `float(threshold)` coercion cannot fail and is omitted). -/
def blast_search (genome motif : Seq) (threshold : ℚ) : Except Err BlastResult :=
  match clean_sequence genome "Genoma" with
  | .error e => .error e
  | .ok genome =>
    match clean_sequence motif "Motif" with
    | .error e => .error e
    | .ok motif =>
      if motif.length > genome.length then
        .error .motifTooLong
      else
        let windows := blast_windows genome motif
        let hits := blast_hits genome motif threshold
        .ok { threshold := threshold, genome_length := genome.length,
              motif_length := motif.length, hit_count := hits.length,
              hits := hits, top_hit := hits.head?, all_windows := windows }

/-- `grover_genomics_demo.py`, `classical_find_occurrences`: the window list
and the exact-match hit indices (`[i for i, w in enumerate(windows) if w == motif]`). -/
def classical_find_occurrences (genome motif : Seq) : List Seq × List ℕ :=
  let L := motif.length
  let windows := (List.range (genome.length + 1 - L)).map fun i => pySlice genome i L
  let good := (windows.enum.filter fun p => p.2 = motif).map fun p => p.1
  (windows, good)

/-- `grover_genomics_demo.py`, `grover_once`, with the quantum sampler
abstracted into the single index `outcome` it returns (the spec treats the
sampler as an external collaborator): compute the windows and the exact-match
ground truth, raise `ValueError("Motif nao aparece no genoma.")` when the
ground truth is empty — before the sampler is consulted — and otherwise
return the sampled index together with the ground truth and the windows. -/
def grover_once (genome motif : Seq) (outcome : ℕ) :
    Except Err (ℕ × List ℕ × List Seq) :=
  let wg := classical_find_occurrences genome motif
  if wg.2 = [] then .error .noOccurrence
  else .ok (outcome, wg.2, wg.1)

/-- The tuple `(acc, counts, sample_good)` returned by `run_trials`. -/
structure TrialResult where
  accuracy : ℚ
  counts : Multiset ℕ
  sample_good : Option (List ℕ)
deriving DecidableEq

/-- The `for _ in range(trials)` loop of `run_trials`: accumulates the hit
counter, the `Counter` of sampled indices (a multiset: its multiplicity
function is the frequency map) and the last `good_indices` seen. Trial `t`
consumes sampler outcome `outcomes t`. -/
def run_trials_loop (genome motif : Seq) (outcomes : ℕ → ℕ) :
    ℕ → Except Err (ℕ × Multiset ℕ × Option (List ℕ))
  | 0 => .ok (0, 0, none)
  | t + 1 =>
    match run_trials_loop genome motif outcomes t with
    | .error e => .error e
    | .ok acc =>
      match grover_once genome motif (outcomes t) with
      | .error e => .error e
      | .ok r =>
        let hits := if r.1 ∈ r.2.1 then acc.1 + 1 else acc.1
        .ok (hits, r.1 ::ₘ acc.2.1, some r.2.1)

/-- `grover_genomics_demo.py`, `run_trials`: run the loop, then
`acc = hits / trials` (a `ZeroDivisionError` when `trials = 0`, exactly as
Python raises on `hits / trials`). -/
def run_trials (genome motif : Seq) (trials : ℕ) (outcomes : ℕ → ℕ) :
    Except Err TrialResult :=
  match run_trials_loop genome motif outcomes trials with
  | .error e => .error e
  | .ok st =>
    if trials = 0 then .error .divisionByZero
    else .ok { accuracy := (st.1 : ℚ) / (trials : ℚ), counts := st.2.1,
               sample_good := st.2.2 }

/-- The five diagnostic strings of `_build_analysis_message`. -/
def msgFullAgreement : String :=
  "Os dois metodos concordaram totalmente nas posicoes encontradas."

/-- Partial-agreement diagnostic. -/
def msgPartialAgreement : String :=
  "Metodos possuem intersecao parcial; investigue indices exclusivos para entender diferencas nos criterios."

/-- Only-Grover diagnostic (loosen the BLAST threshold). -/
def msgOnlyGrover : String :=
  "Somente Grover encontrou padroes; considere reduzir o limiar do BLAST."

/-- Only-BLAST diagnostic (verify the quantum precision). -/
def msgOnlyBlast : String :=
  "Somente o BLAST passou do limiar; verifique a precisao quantica."

/-- Neither-method diagnostic. -/
def msgNeither : String :=
  "Nenhum dos metodos encontrou o motif com os parametros atuais."

/-- `blast_search.py`, `_build_analysis_message`: the priority chain of
`if` statements, with Python truthiness of a list being non-emptiness. -/
def build_analysis_message (overlap grover_only blast_only : List ℕ) : String :=
  if overlap ≠ [] ∧ ¬(grover_only ≠ [] ∨ blast_only ≠ []) then msgFullAgreement
  else if overlap ≠ [] then msgPartialAgreement
  else if grover_only ≠ [] ∧ ¬blast_only ≠ [] then msgOnlyGrover
  else if blast_only ≠ [] ∧ ¬grover_only ≠ [] then msgOnlyBlast
  else msgNeither

/-- The `analysis` dictionary built by `compare_methods`. -/
structure AnalysisResult where
  overlap_indices : List ℕ
  grover_only : List ℕ
  blast_only : List ℕ
  agreement_ratio : ℚ
  message : String
deriving DecidableEq

/-- Python `sorted(s)` for a set of indices: the ascending list of the
elements of `s` (written as a filter of an initial segment so that it
evaluates by kernel reduction; `sortedOf_eq_sort` below identifies it with
`Finset.sort`). -/
def sortedOf (s : Finset ℕ) : List ℕ :=
  (List.range (s.sup id + 1)).filter fun x => x ∈ s

/-- `blast_search.py`, `compare_methods`, lines 106–124: the reconciliation
of the two hit-index sets into the `analysis` dictionary (the spec's
`compare(hit_set_a, hit_set_b)` operation). Python's `if union:` truthiness
test on a set is non-emptiness, written here as a nonzero size. -/
def compare_analysis (grover_hits blast_hits : Finset ℕ) : AnalysisResult :=
  let overlap := sortedOf (grover_hits ∩ blast_hits)
  let grover_only := sortedOf (grover_hits \ blast_hits)
  let blast_only := sortedOf (blast_hits \ grover_hits)
  let union := grover_hits ∪ blast_hits
  let ratio : ℚ :=
    if union.card ≠ 0 then (overlap.length : ℚ) / (union.card : ℚ) else 0
  { overlap_indices := overlap, grover_only := grover_only,
    blast_only := blast_only, agreement_ratio := ratio,
    message := build_analysis_message overlap grover_only blast_only }

/-- Python division, with its `ZeroDivisionError`. -/
def pyDiv (a b : ℚ) : Except Err ℚ :=
  if b = 0 then .error .divisionByZero else .ok (a / b)

/-- `compare_analysis` with every fallible Python operation kept fallible:
the only such operation in lines 106–124 is the division
`len(overlap) / len(union)`, executed only under the `if union:` guard. -/
def compare_analysisE (grover_hits blast_hits : Finset ℕ) :
    Except Err AnalysisResult :=
  let overlap := sortedOf (grover_hits ∩ blast_hits)
  let grover_only := sortedOf (grover_hits \ blast_hits)
  let blast_only := sortedOf (blast_hits \ grover_hits)
  let union := grover_hits ∪ blast_hits
  let ratioE : Except Err ℚ :=
    if union.card ≠ 0 then pyDiv (overlap.length : ℚ) (union.card : ℚ)
    else .ok 0
  match ratioE with
  | .error e => .error e
  | .ok ratio =>
    .ok { overlap_indices := overlap, grover_only := grover_only,
          blast_only := blast_only, agreement_ratio := ratio,
          message := build_analysis_message overlap grover_only blast_only }

/-! ## Supporting lemmas -/

theorem matchesCount_le_left (w m : Seq) : matchesCount w m ≤ w.length := by
  calc matchesCount w m ≤ (w.zip m).length := List.countP_le_length _
    _ = min w.length m.length := List.length_zip ..
    _ ≤ w.length := min_le_left _ _

theorem matchesCount_le_right (w m : Seq) : matchesCount w m ≤ m.length := by
  calc matchesCount w m ≤ (w.zip m).length := List.countP_le_length _
    _ = min w.length m.length := List.length_zip ..
    _ ≤ m.length := min_le_right _ _

theorem matchesCount_eq_length_iff :
    ∀ (w m : Seq), w.length = m.length → (matchesCount w m = m.length ↔ w = m)
  | [], [], _ => by simp [matchesCount]
  | [], _ :: _, h => by simp at h
  | _ :: _, [], h => by simp at h
  | a :: w, b :: m, h => by
    have hlen : w.length = m.length := by simpa using h
    have ih := matchesCount_eq_length_iff w m hlen
    have hle := matchesCount_le_right w m
    have hmc : matchesCount (a :: w) (b :: m)
        = matchesCount w m + (if a = b then 1 else 0) := by
      simp [matchesCount, List.countP_cons]
    by_cases hab : a = b
    · subst hab
      rw [hmc, if_pos rfl]
      simp only [List.length_cons]
      constructor
      · intro hc
        have hwm : matchesCount w m = m.length := by omega
        simp [ih.mp hwm]
      · intro hc
        injection hc with h1 h2
        rw [ih.mpr h2]
    · rw [hmc]
      simp only [if_neg hab, List.length_cons]
      constructor
      · intro hc; omega
      · intro hc
        exact absurd (by injection hc) hab

theorem mem_good_iff (genome motif : Seq) (i : ℕ) :
    i ∈ (classical_find_occurrences genome motif).2 ↔
      i < genome.length + 1 - motif.length ∧ pySlice genome i motif.length = motif := by
  unfold classical_find_occurrences
  simp only [List.mem_map, List.mem_filter, Prod.exists]
  constructor
  · rintro ⟨j, w, ⟨hmem, hw⟩, rfl⟩
    have hj := List.mk_mem_enum_iff_getElem?.mp hmem
    rcases List.getElem?_eq_some.mp hj with ⟨hlt, hval⟩
    have hjN : j < genome.length + 1 - motif.length := by simpa using hlt
    refine ⟨hjN, ?_⟩
    have hwj : pySlice genome j motif.length = w := by simpa using hval
    rw [hwj]
    exact of_decide_eq_true hw
  · intro ⟨hi, hs⟩
    refine ⟨i, motif, ⟨?_, by simp⟩, rfl⟩
    apply List.mk_mem_enum_iff_getElem?.mpr
    apply List.getElem?_eq_some.mpr
    refine ⟨by simpa using hi, by simpa using hs⟩

theorem sortedOf_nodup (s : Finset ℕ) : (sortedOf s).Nodup :=
  (List.nodup_range _).filter _

theorem mem_sortedOf (s : Finset ℕ) (x : ℕ) : x ∈ sortedOf s ↔ x ∈ s := by
  unfold sortedOf
  simp only [List.mem_filter, List.mem_range, decide_eq_true_eq, and_iff_right_iff_imp]
  intro hx
  exact Nat.lt_succ_of_le (Finset.le_sup (f := id) hx)

theorem sortedOf_toFinset (s : Finset ℕ) : (sortedOf s).toFinset = s := by
  ext x
  simp [List.mem_toFinset, mem_sortedOf]

theorem length_sortedOf (s : Finset ℕ) : (sortedOf s).length = s.card := by
  rw [← List.toFinset_card_of_nodup (sortedOf_nodup s), sortedOf_toFinset]

theorem sortedOf_sorted (s : Finset ℕ) : (sortedOf s).Sorted (· ≤ ·) :=
  ((List.pairwise_lt_range _).sublist (List.filter_sublist _)).imp le_of_lt

theorem sortedOf_eq_nil_iff (s : Finset ℕ) : sortedOf s = [] ↔ s = ∅ := by
  constructor
  · intro h
    ext x
    simp only [Finset.not_mem_empty, iff_false]
    intro hx
    have := (mem_sortedOf s x).mpr hx
    simp [h] at this
  · rintro rfl
    have : (sortedOf (∅ : Finset ℕ)).length = 0 := by simp [length_sortedOf]
    exact List.length_eq_zero.mp this

instance : IsTotal MatchWindow hitOrder where
  total a b := by
    unfold hitOrder
    rcases lt_trichotomy a.identity b.identity with h | h | h
    · exact Or.inr (Or.inl h)
    · rcases lt_trichotomy a.score b.score with h2 | h2 | h2
      · exact Or.inr (Or.inr ⟨h.symm, Or.inl h2⟩)
      · rcases Nat.le_total a.index b.index with h3 | h3
        · exact Or.inl (Or.inr ⟨h, Or.inr ⟨h2, h3⟩⟩)
        · exact Or.inr (Or.inr ⟨h.symm, Or.inr ⟨h2.symm, h3⟩⟩)
      · exact Or.inl (Or.inr ⟨h, Or.inl h2⟩)
    · exact Or.inl (Or.inl h)

instance : IsTrans MatchWindow hitOrder where
  trans a b c hab hbc := by
    unfold hitOrder at hab hbc ⊢
    rcases hab with h1 | ⟨e1, h1⟩
    · rcases hbc with h2 | ⟨e2, h2⟩
      · exact Or.inl (lt_trans h2 h1)
      · exact Or.inl (e2 ▸ h1)
    · rcases hbc with h2 | ⟨e2, h2⟩
      · exact Or.inl (e1 ▸ h2)
      · refine Or.inr ⟨e1.trans e2, ?_⟩
        rcases h1 with s1 | ⟨f1, i1⟩
        · rcases h2 with s2 | ⟨f2, i2⟩
          · exact Or.inl (lt_trans s2 s1)
          · exact Or.inl (f2 ▸ s1)
        · rcases h2 with s2 | ⟨f2, i2⟩
          · exact Or.inl (f1 ▸ s2)
          · exact Or.inr ⟨f1.trans f2, le_trans i1 i2⟩

theorem matchesCount_self (m : Seq) : matchesCount m m = m.length :=
  (matchesCount_eq_length_iff m m rfl).mpr rfl

/-! ## Claim theorems -/

/-- C5: for every valid `(sequence, motif)` pair with `len(motif) ≤
len(sequence)`, window enumeration (both in `blast_search` and in
`classical_find_occurrences`) produces exactly `len(sequence) − len(motif) +
1` windows, one per start index from `0` to `len(sequence) − len(motif)`
inclusive; concretely, sequence `"ACGTTACGTAACGTTACGTA"` with motif
`"ACGTT"` gives 16 windows and exact-match hits `{0, 10}`. -/
theorem window_count_invariant (genome motif : Seq)
    (h : motif.length ≤ genome.length) :
    (blast_windows genome motif).length = genome.length - motif.length + 1
    ∧ (blast_windows genome motif).map MatchWindow.index
        = List.range (genome.length - motif.length + 1)
    ∧ (classical_find_occurrences genome motif).1.length
        = genome.length - motif.length + 1
    ∧ (classical_find_occurrences "ACGTTACGTAACGTTACGTA".toList
        "ACGTT".toList).1.length = 16
    ∧ (classical_find_occurrences "ACGTTACGTAACGTTACGTA".toList
        "ACGTT".toList).2 = [0, 10] := by
  have hn : genome.length + 1 - motif.length = genome.length - motif.length + 1 := by
    omega
  refine ⟨?_, ?_, ?_, by decide, by decide⟩
  · simp [blast_windows, hn]
  · rw [blast_windows, hn, List.map_map]
    have hcomp : (MatchWindow.index ∘ fun idx =>
        { score_window (pySlice genome idx motif.length) motif with index := idx })
        = id := rfl
    rw [hcomp, List.map_id]
  · simp [classical_find_occurrences, hn]

/-- Witness for C5 at the concrete scenario inputs. -/
theorem window_count_invariant_witness :
    (blast_windows "ACGTTACGTAACGTTACGTA".toList "ACGTT".toList).length
      = "ACGTTACGTAACGTTACGTA".toList.length - "ACGTT".toList.length + 1 :=
  (window_count_invariant "ACGTTACGTAACGTTACGTA".toList "ACGTT".toList
    (by decide)).1

/-- C8: for every scored window (window and motif of equal positive length,
as produced by `blast_search`), the identity is `matches / len(motif) * 100`
and lies in `[0, 100]`, the score is `matches * 2 + (len(motif) − matches) *
(−1)`, `is_perfect` holds exactly when all positions match, and the identity
is `100` iff the window equals the motif exactly. -/
theorem score_window_props (w m : Seq) (h1 : w.length = m.length)
    (h2 : 0 < m.length) :
    (score_window w m).identity
        = ((score_window w m).matched : ℚ) / (m.length : ℚ) * 100
    ∧ 0 ≤ (score_window w m).identity
    ∧ (score_window w m).identity ≤ 100
    ∧ (score_window w m).score
        = ((score_window w m).matched : ℤ) * 2
          + ((m.length : ℤ) - ((score_window w m).matched : ℤ)) * (-1)
    ∧ (is_perfect (score_window w m) = true
        ↔ (score_window w m).matched = m.length)
    ∧ ((score_window w m).identity = 100 ↔ w = m) := by
  have hL : (0 : ℚ) < (m.length : ℚ) := by exact_mod_cast h2
  have hL0 : (m.length : ℚ) ≠ 0 := ne_of_gt hL
  have hle : (matchesCount w m : ℚ) ≤ (m.length : ℚ) := by
    exact_mod_cast matchesCount_le_right w m
  have hid : (score_window w m).identity
      = (matchesCount w m : ℚ) / (m.length : ℚ) * 100 := rfl
  refine ⟨rfl, ?_, ?_, rfl, ?_, ?_⟩
  · rw [hid]
    positivity
  · rw [hid]
    calc (matchesCount w m : ℚ) / (m.length : ℚ) * 100
        ≤ 1 * 100 := by
          apply mul_le_mul_of_nonneg_right _ (by norm_num)
          exact (div_le_one hL).mpr hle
      _ = 100 := one_mul _
  · simp [is_perfect, score_window, h1]
  · rw [hid]
    constructor
    · intro hc
      field_simp at hc
      have : (matchesCount w m : ℚ) = (m.length : ℚ) := by linarith
      exact (matchesCount_eq_length_iff w m h1).mp (by exact_mod_cast this)
    · intro hc
      subst hc
      rw [matchesCount_self, div_self hL0, one_mul]

/-- Witness for C8: the perfect window of the motif itself has identity 100. -/
theorem score_window_props_witness :
    (score_window "ACGTT".toList "ACGTT".toList).identity = 100 :=
  ((score_window_props "ACGTT".toList "ACGTT".toList rfl
    (by decide)).2.2.2.2.2).mpr rfl

/-- C7: the diagnostic message of `_build_analysis_message` is selected by the
five-case priority chain, first match winning: full agreement, then partial
agreement, then only-A (loosen B), then only-B (verify A), then neither. -/
theorem analysis_message_priority (o a b : List ℕ) :
    (o ≠ [] ∧ a = [] ∧ b = []
      → build_analysis_message o a b = msgFullAgreement)
    ∧ (o ≠ [] ∧ (a ≠ [] ∨ b ≠ [])
      → build_analysis_message o a b = msgPartialAgreement)
    ∧ (o = [] ∧ a ≠ [] ∧ b = []
      → build_analysis_message o a b = msgOnlyGrover)
    ∧ (o = [] ∧ b ≠ [] ∧ a = []
      → build_analysis_message o a b = msgOnlyBlast)
    ∧ (o = [] ∧ ((a ≠ [] ∧ b ≠ []) ∨ (a = [] ∧ b = []))
      → build_analysis_message o a b = msgNeither) := by
  unfold build_analysis_message
  refine ⟨?_, ?_, ?_, ?_, ?_⟩ <;> intro h <;> split_ifs <;> tauto

/-- Witness for C7: each of the five cases fires at a concrete triple. -/
theorem analysis_message_priority_witness :
    build_analysis_message [0] [] [] = msgFullAgreement
    ∧ build_analysis_message [0] [1] [] = msgPartialAgreement
    ∧ build_analysis_message [] [1] [] = msgOnlyGrover
    ∧ build_analysis_message [] [] [2] = msgOnlyBlast
    ∧ build_analysis_message [] [] [] = msgNeither :=
  ⟨(analysis_message_priority [0] [] []).1 (by simp),
   (analysis_message_priority [0] [1] []).2.1 (by simp),
   (analysis_message_priority [] [1] []).2.2.1 (by simp),
   (analysis_message_priority [] [] [2]).2.2.2.1 (by simp),
   (analysis_message_priority [] [] []).2.2.2.2 (by simp)⟩

/-- C1: on every successful `blast_search` run, the reported `hits` list is
sorted descending by identity, then descending by score, then ascending by
index (`hitOrder`), and `top_hit` is its first element (absent when the hit
list is empty, since `head?` of `[]` is `none`). -/
theorem blast_hits_ranked (genome motif : Seq) (threshold : ℚ)
    (r : BlastResult) (h : blast_search genome motif threshold = .ok r) :
    List.Sorted hitOrder r.hits ∧ r.top_hit = r.hits.head? := by
  unfold blast_search at h
  split at h
  · exact absurd h (by simp)
  · split at h
    · exact absurd h (by simp)
    · split at h
      · exact absurd h (by simp)
      · obtain rfl : _ = r := Except.ok.inj h
        exact ⟨List.sorted_insertionSort hitOrder _, rfl⟩

/-- Witness for C1 at a concrete successful run. -/
theorem blast_hits_ranked_witness :
    ∃ r, blast_search "AC".toList "AC".toList 0 = Except.ok r
      ∧ List.Sorted hitOrder r.hits ∧ r.top_hit = r.hits.head? :=
  ⟨_, rfl, blast_hits_ranked "AC".toList "AC".toList 0 _ rfl⟩

/-- C10: for every normalized genome and motif with a nonempty motif no
longer than the genome and every threshold at most 100, every exact-match
index appears in the threshold hit set (a perfect window has identity
exactly 100, which meets the inclusive test), and raising the threshold
never adds hits. -/
theorem exact_hits_subset_threshold_hits (genome motif : Seq) (t t' : ℚ)
    (_hlen : motif.length ≤ genome.length) (hm : 0 < motif.length)
    (ht : t ≤ 100) (htt : t ≤ t') :
    (∀ i ∈ (classical_find_occurrences genome motif).2,
        i ∈ (blast_hits genome motif t).map MatchWindow.index)
    ∧ (∀ w ∈ blast_hits genome motif t', w ∈ blast_hits genome motif t) := by
  constructor
  · intro i hi
    rw [mem_good_iff] at hi
    obtain ⟨hiN, hslice⟩ := hi
    refine List.mem_map.mpr
      ⟨{ score_window (pySlice genome i motif.length) motif with index := i },
        ?_, rfl⟩
    rw [blast_hits, List.mem_insertionSort, List.mem_filter]
    constructor
    · exact List.mem_map.mpr ⟨i, List.mem_range.mpr hiN, rfl⟩
    · have hid : ({ score_window (pySlice genome i motif.length) motif
          with index := i } : MatchWindow).identity = 100 := by
        show (score_window (pySlice genome i motif.length) motif).identity = 100
        rw [hslice]
        have hL0 : ((motif.length : ℚ)) ≠ 0 := by
          exact_mod_cast Nat.pos_iff_ne_zero.mp hm
        show (matchesCount motif motif : ℚ) / (motif.length : ℚ) * 100 = 100
        rw [matchesCount_self, div_self hL0, one_mul]
      rw [hid]
      exact decide_eq_true ht
  · intro w hw
    rw [blast_hits, List.mem_insertionSort, List.mem_filter] at hw
    obtain ⟨hmem, hpred⟩ := hw
    rw [blast_hits, List.mem_insertionSort, List.mem_filter]
    refine ⟨hmem, decide_eq_true ?_⟩
    exact le_trans htt (of_decide_eq_true hpred)

/-- Witness for C10: exact hit 0 of the concrete scenario appears in the
70%-threshold hit set. -/
theorem exact_hits_subset_threshold_hits_witness :
    0 ∈ (blast_hits "ACGTTACGTAACGTTACGTA".toList "ACGTT".toList 70).map
      MatchWindow.index :=
  (exact_hits_subset_threshold_hits "ACGTTACGTAACGTTACGTA".toList
      "ACGTT".toList 70 80 (by decide) (by decide) (by norm_num)
      (by norm_num)).1 0 (by decide)

/-- C2: the compare operation on two hit-index sets is total and pure: with
every fallible Python operation modelled as fallible (`compare_analysisE`),
it still returns, for every pair of hit sets, exactly the `AnalysisResult`
computed by the pure function `compare_analysis` — it never raises, and its
output depends only on the two sets. -/
theorem compare_analysis_total (a b : Finset ℕ) :
    compare_analysisE a b = Except.ok (compare_analysis a b) := by
  unfold compare_analysisE compare_analysis pyDiv
  by_cases h : (a ∪ b).card = 0
  · simp [h]
  · have hcast : ((a ∪ b).card : ℚ) ≠ 0 := by exact_mod_cast h
    simp [h, hcast]

theorem inter_eq_union_iff (a b : Finset ℕ) : a ∩ b = a ∪ b ↔ a = b := by
  constructor
  · intro h
    apply Finset.Subset.antisymm
    · intro x hx
      have : x ∈ a ∩ b := h ▸ Finset.mem_union_left b hx
      exact (Finset.mem_inter.mp this).2
    · intro x hx
      have : x ∈ a ∩ b := h ▸ Finset.mem_union_right a hx
      exact (Finset.mem_inter.mp this).1
  · rintro rfl
    simp

unseal Rat.mul Rat.inv in
/-- C6: the agreement ratio is `|intersection| / |union|` (0 when the union
is empty), lies in `[0, 1]`, is 0 exactly when the intersection is empty,
and is 1 exactly when the two sets are identical and non-empty; concretely,
`compare({0,10}, {0})` gives overlap `[0]`, exclusive sets `[10]` and `[]`,
and ratio `1/2`. -/
theorem agreement_ratio_props (a b : Finset ℕ) :
    (compare_analysis a b).agreement_ratio
        = (if a ∪ b = ∅ then 0 else ((a ∩ b).card : ℚ) / ((a ∪ b).card : ℚ))
    ∧ 0 ≤ (compare_analysis a b).agreement_ratio
    ∧ (compare_analysis a b).agreement_ratio ≤ 1
    ∧ ((compare_analysis a b).agreement_ratio = 0 ↔ a ∩ b = ∅)
    ∧ ((compare_analysis a b).agreement_ratio = 1 ↔ a = b ∧ a ≠ ∅)
    ∧ (compare_analysis {0, 10} {0}).overlap_indices = [0]
    ∧ (compare_analysis {0, 10} {0}).grover_only = [10]
    ∧ (compare_analysis {0, 10} {0}).blast_only = []
    ∧ (compare_analysis {0, 10} {0}).agreement_ratio = 1 / 2 := by
  have hsub : a ∩ b ⊆ a ∪ b := (Finset.inter_subset_left).trans
    Finset.subset_union_left
  have hratio : (compare_analysis a b).agreement_ratio
      = if (a ∪ b).card ≠ 0 then ((a ∩ b).card : ℚ) / ((a ∪ b).card : ℚ)
        else 0 := by
    simp only [compare_analysis, length_sortedOf]
  by_cases h : (a ∪ b).card = 0
  · have hu : a ∪ b = ∅ := Finset.card_eq_zero.mp h
    have hab : a = ∅ ∧ b = ∅ := Finset.union_eq_empty.mp hu
    have hr0 : (compare_analysis a b).agreement_ratio = 0 := by
      rw [hratio, if_neg (by simpa using h)]
    refine ⟨?_, ?_, ?_, ?_, ?_, by decide, by decide, by decide, by decide⟩
    · rw [hr0, if_pos hu]
    · rw [hr0]
    · rw [hr0]; norm_num
    · rw [hr0]
      simp [Finset.subset_empty.mp (hu ▸ hsub)]
    · rw [hr0]
      constructor
      · intro h01; exact absurd h01 (by norm_num)
      · rintro ⟨rfl, hne⟩
        exact absurd hab.1 hne
  · have hupos : 0 < ((a ∪ b).card : ℚ) := by
      have := Nat.pos_of_ne_zero h
      exact_mod_cast this
    have hune : ((a ∪ b).card : ℚ) ≠ 0 := ne_of_gt hupos
    have hle : ((a ∩ b).card : ℚ) ≤ ((a ∪ b).card : ℚ) := by
      exact_mod_cast Finset.card_le_card hsub
    have hr : (compare_analysis a b).agreement_ratio
        = ((a ∩ b).card : ℚ) / ((a ∪ b).card : ℚ) := by
      rw [hratio, if_pos h]
    refine ⟨?_, ?_, ?_, ?_, ?_, by decide, by decide, by decide, by decide⟩
    · rw [hr, if_neg fun hu => h (by simp [hu])]
    · rw [hr]; positivity
    · rw [hr]; exact (div_le_one hupos).mpr hle
    · rw [hr, div_eq_zero_iff]
      constructor
      · intro hc
        rcases hc with hc | hc
        · exact Finset.card_eq_zero.mp (by exact_mod_cast hc)
        · exact absurd hc hune
      · intro hc
        left
        rw [hc]
        simp
    · rw [hr, div_eq_one_iff_eq hune]
      constructor
      · intro hc
        have hcards : (a ∩ b).card = (a ∪ b).card := by exact_mod_cast hc
        have heq : a ∩ b = a ∪ b :=
          Finset.eq_of_subset_of_card_le hsub (le_of_eq hcards.symm)
        have hab : a = b := (inter_eq_union_iff a b).mp heq
        refine ⟨hab, ?_⟩
        intro hae
        apply h
        subst hab
        simp [hae]
      · rintro ⟨rfl, hne⟩
        simp

theorem run_trials_loop_noOccurrence (g m : Seq) (f : ℕ → ℕ)
    (h : (classical_find_occurrences g m).2 = []) :
    ∀ T, 1 ≤ T → run_trials_loop g m f T = .error .noOccurrence
  | 0, hT => absurd hT (by norm_num)
  | T + 1, _ => by
    rcases Nat.eq_zero_or_pos T with rfl | hT
    · simp [run_trials_loop, grover_once, h]
    · have ih := run_trials_loop_noOccurrence g m f h T hT
      simp [run_trials_loop, ih]

theorem run_trials_loop_ok (g m : Seq) (f : ℕ → ℕ)
    (h : (classical_find_occurrences g m).2 ≠ []) :
    ∀ T, run_trials_loop g m f T
      = .ok (((List.range T).map f).countP
            (fun i => decide (i ∈ (classical_find_occurrences g m).2)),
          (((List.range T).map f : List ℕ) : Multiset ℕ),
          if T = 0 then none else some (classical_find_occurrences g m).2)
  | 0 => by simp [run_trials_loop]
  | T + 1 => by
    have ih := run_trials_loop_ok g m f h T
    have hg : grover_once g m (f T)
        = .ok (f T, (classical_find_occurrences g m).2,
            (classical_find_occurrences g m).1) := by
      simp [grover_once, h]
    have h1 : (if f T ∈ (classical_find_occurrences g m).2 then
          ((List.range T).map f).countP
            (fun i => decide (i ∈ (classical_find_occurrences g m).2)) + 1
        else ((List.range T).map f).countP
            (fun i => decide (i ∈ (classical_find_occurrences g m).2)))
        = ((List.range (T + 1)).map f).countP
            (fun i => decide (i ∈ (classical_find_occurrences g m).2)) := by
      rw [List.range_succ, List.map_append, List.countP_append]
      by_cases hmem : f T ∈ (classical_find_occurrences g m).2
      · simp [hmem]
      · simp [hmem]
    have h2 : f T ::ₘ (((List.range T).map f : List ℕ) : Multiset ℕ)
        = (((List.range (T + 1)).map f : List ℕ) : Multiset ℕ) := by
      rw [List.range_succ, List.map_append, ← Multiset.coe_add, add_comm]
      simp [Multiset.singleton_add]
    simp only [run_trials_loop, ih, hg, h1, h2]
    simp

/-- C4: whenever the exact-match hit set is empty, `run_trials` fails with
the `NoOccurrence` error (`ValueError("Motif nao aparece no genoma.")`); the
sampler outcomes are universally quantified and the result does not depend
on them, so the failure happens before any sampler invocation, and it is the
same for every trial count ≥ 1 — a precondition, not a per-trial retry. -/
theorem run_trials_noOccurrence (genome motif : Seq) (T : ℕ)
    (outcomes : ℕ → ℕ) (hT : 1 ≤ T)
    (h : (classical_find_occurrences genome motif).2 = []) :
    run_trials genome motif T outcomes = .error .noOccurrence := by
  unfold run_trials
  rw [run_trials_loop_noOccurrence genome motif outcomes h T hT]

/-- Witness for C4: the absent motif `"ZZZZZ"` over an ACGT genome. -/
theorem run_trials_noOccurrence_witness :
    run_trials "ACGT".toList "ZZZZZ".toList 1 (fun _ => 0)
      = Except.error Err.noOccurrence :=
  run_trials_noOccurrence "ACGT".toList "ZZZZZ".toList 1 (fun _ => 0)
    (by norm_num) (by decide)

/-- C9: for every trial count `T ≥ 1` and every sequence of sampler
outcomes, `run_trials` returns accuracy = (number of sampled indices lying
in the ground-truth hit set) / T, which lies in `[0, 1]`, and the sum of the
frequency map's values equals exactly `T`. -/
theorem run_trials_aggregation (genome motif : Seq) (T : ℕ) (f : ℕ → ℕ)
    (hT : 1 ≤ T) (h : (classical_find_occurrences genome motif).2 ≠ []) :
    ∃ r, run_trials genome motif T f = Except.ok r
      ∧ r.accuracy = ((((List.range T).map f).countP
            (fun i => decide (i ∈ (classical_find_occurrences genome motif).2)) : ℕ) : ℚ)
          / (T : ℚ)
      ∧ 0 ≤ r.accuracy ∧ r.accuracy ≤ 1
      ∧ (∑ i in r.counts.toFinset, r.counts.count i) = T := by
  have hloop := run_trials_loop_ok genome motif f h T
  have hT0 : T ≠ 0 := by omega
  have hTpos : (0 : ℚ) < (T : ℚ) := by exact_mod_cast Nat.pos_of_ne_zero hT0
  unfold run_trials
  rw [hloop]
  simp only [if_neg hT0]
  refine ⟨_, rfl, rfl, ?_, ?_, ?_⟩
  · positivity
  · apply (div_le_one hTpos).mpr
    have : (((List.range T).map f).countP
        (fun i => decide (i ∈ (classical_find_occurrences genome motif).2)))
        ≤ T := by
      calc _ ≤ ((List.range T).map f).length := List.countP_le_length _
        _ = T := by simp
    exact_mod_cast this
  · show (∑ i in Multiset.toFinset _, Multiset.count i _) = T
    rw [Multiset.toFinset_sum_count_eq]
    simp

/-- Witness for C9 at a concrete run: two trials, all outcomes 0. -/
theorem run_trials_aggregation_witness :
    ∃ r, run_trials "ACGTTACGTAACGTTACGTA".toList "ACGTT".toList 2
        (fun _ => 0) = Except.ok r
      ∧ r.accuracy = ((((List.range 2).map (fun _ => 0)).countP
            (fun i => decide (i ∈ (classical_find_occurrences
              "ACGTTACGTAACGTTACGTA".toList "ACGTT".toList).2)) : ℕ) : ℚ)
          / ((2 : ℕ) : ℚ)
      ∧ 0 ≤ r.accuracy ∧ r.accuracy ≤ 1
      ∧ (∑ i in r.counts.toFinset, r.counts.count i) = 2 :=
  run_trials_aggregation "ACGTTACGTAACGTTACGTA".toList "ACGTT".toList 2
    (fun _ => 0) (by norm_num) (by decide)

/-- C3 counterexample: with the empty motif (empty before and after any
normalization), `run_trials` raises no error at all — in particular no
empty-input validation error — because `classical_find_occurrences` applies
no normalization or emptiness check and the empty motif matches every
window. -/
theorem run_trials_empty_motif_no_error :
    (run_trials "ACGT".toList [] 1 (fun _ => 0)).isOk = true := by decide

/-- C3 amended: only `blast_search` normalizes its inputs (strip + upper
case) and raises the empty-input `ValueError` at its boundary whenever the
genome or the motif is empty after normalization; the trial runner performs
no such validation. -/
theorem blast_search_empty_input (genome motif : Seq) (t : ℚ)
    (h : pyUpper (pyStrip genome) = [] ∨ pyUpper (pyStrip motif) = []) :
    ∃ name, blast_search genome motif t = .error (.emptyInput name) := by
  rcases h with h | h
  · exact ⟨"Genoma", by simp [blast_search, clean_sequence, h]⟩
  · by_cases hg : pyUpper (pyStrip genome) = []
    · exact ⟨"Genoma", by simp [blast_search, clean_sequence, hg]⟩
    · exact ⟨"Motif", by simp [blast_search, clean_sequence, h, hg]⟩

/-- Witness for the amended C3: a whitespace-only genome is rejected. -/
theorem blast_search_empty_input_witness :
    ∃ name, blast_search "   ".toList "ACGTT".toList 70
      = Except.error (Err.emptyInput name) :=
  blast_search_empty_input "   ".toList "ACGTT".toList 70 (Or.inl (by decide))

end GroverGenomics
